import Mathlib

/-!
Shallow embedding of the benchwrap concurrent file-synchronization engine
(`cli_sync.py`, `cli_auth.py`, `cli_progress.py`, `cli_constants.py`).

External effects (HTTP responses, the filesystem walk, interactive prompts,
thread completion order) are modelled as explicit inputs; the functions below
mirror the Python control flow on those inputs.
-/

namespace Benchwrap

/-- Requests `Response.ok`: true unless the status code is a 4xx/5xx error
(`raise_for_status` raises exactly for `400 ≤ status < 600`). -/
def responseOk (status : Nat) : Bool :=
  !(decide (400 ≤ status) && decide (status < 600))

/-- The object-key normalization applied to a relative archive name, on the
character list: `archive_name.replace(os.sep, "/").lstrip("/")[:256]`
(`cli_sync.py` line 44 and line 176). -/
def normalizeKeyL (sep : Char) (name : List Char) : List Char :=
  (((name.map (fun c => if c = sep then '/' else c)).dropWhile (fun c => c = '/')).take 256)

/-- String version of `normalizeKeyL`. -/
def normalizeKey (sep : Char) (name : String) : String :=
  ⟨normalizeKeyL sep name.toList⟩

/-- The `ProgressFile` wrapper (`cli_progress.py` lines 56-80): a read wrapper over a byte
sequence.  `content` is the file's bytes at open time, `pos` the read position,
`size` the size recorded at construction, `bytes_sent` the running counter. -/
structure ProgressFile where
  content : List Nat
  pos : Nat
  size : Nat
  bytes_sent : Nat
  deriving Repr, DecidableEq

/-- Construction of a `ProgressFile` (`__init__`): open the file, record its size, start the
counter at zero. -/
def ProgressFile.init (content : List Nat) : ProgressFile :=
  { content := content, pos := 0, size := content.length, bytes_sent := 0 }

/-- One `ProgressFile.read(chunk_size)` call: returns the data read, the new
state, and the list of progress-callback invocations (arguments
`(bytes_sent, size)`) performed during the call. -/
def ProgressFile.read (pf : ProgressFile) (chunkSize : Nat) :
    List Nat × ProgressFile × List (Nat × Nat) :=
  let data := (pf.content.drop pf.pos).take chunkSize
  if data.isEmpty then (data, pf, [])
  else
    let sent := pf.bytes_sent + data.length
    (data,
     { pf with pos := pf.pos + data.length, bytes_sent := sent },
     [(sent, pf.size)])

/-- Run a sequence of `read` calls with the given chunk sizes; collect the
returned data chunks and the concatenated callback log. -/
def runReads (pf : ProgressFile) : List Nat → ProgressFile × List (List Nat) × List (Nat × Nat)
  | [] => (pf, [], [])
  | c :: cs =>
    let r := pf.read c
    let rest := runReads r.2.1 cs
    (rest.1, r.1 :: rest.2.1, r.2.2 ++ rest.2.2)

/-- The callback log expected from a sequence of returned data chunks: one
entry per non-empty chunk, carrying the cumulative byte count and the size. -/
def expectedLog (size : Nat) : Nat → List (List Nat) → List (Nat × Nat)
  | _, [] => []
  | acc, d :: ds =>
    if d.isEmpty then expectedLog size acc ds
    else (acc + d.length, size) :: expectedLog size (acc + d.length) ds

/-- Events observable from one `upload_one` call (`cli_sync.py` lines 96-155). -/
inductive UpEv where
  | presign (objectName : String)
  | put (contentLengthHeader : Option String) (bodyLen : Nat)
  | mkProgress
  | progressCb (sent : Nat) (total : Nat)
  | tableUpd (row : Nat)
  deriving Repr, DecidableEq

/-- The server-and-filesystem environment one `upload_one` call runs against:
the presign response status, the PUT response status, and the local file's
bytes. -/
structure UploadEnv where
  presignStatus : Nat
  putStatus : Nat
  content : List Nat
  deriving Repr

/-- Drain a `ProgressFile` with repeated 1 MiB reads (the streaming PUT),
collecting the callback invocations.  `fuel` bounds the loop; each non-empty
read advances the position, and the loop stops at the first empty read. -/
def streamLoop : Nat → ProgressFile → List (Nat × Nat)
  | 0, _ => []
  | fuel + 1, pf =>
    let r := pf.read 1048576
    if r.1.isEmpty then []
    else r.2.2 ++ streamLoop fuel r.2.1

/-- All progress-callback invocations of streaming a file's bytes through
`ProgressFile` in 1 MiB chunks. -/
def streamCalls (content : List Nat) : List (Nat × Nat) :=
  streamLoop (content.length + 1) (ProgressFile.init content)

/-- Model of `upload_one(index, access_token, filepath, object_name)`
(`cli_sync.py` lines 96-155): presign, then PUT (zero-byte special case or
streaming through `ProgressFile`), then report.  Returns the
`(object_name, success)` result together with the event trace.  Success of
the PUT is `put_response.ok`. -/
def upload_one (index : Nat) (env : UploadEnv) (objectName : String) :
    (String × Bool) × List UpEv :=
  if env.presignStatus ≠ 200 then
    ((objectName, false), [.presign objectName, .tableUpd index])
  else
    let fileSize := env.content.length
    if fileSize = 0 then
      ((objectName, responseOk env.putStatus),
       [.presign objectName, .put (some "0") 0, .tableUpd index])
    else
      ((objectName, responseOk env.putStatus),
       [.presign objectName, .mkProgress] ++
         (streamCalls env.content).map (fun p => .progressCb p.1 p.2) ++
         [.put (some (toString fileSize)) fileSize, .tableUpd index])

/-! ## File enumeration (`list_files_upload`, `cli_sync.py` lines 20-35) -/

/-- Base name of `TOK_FILE` (`cli_constants.py` line 14:
`TOK_FILE = DATA_DIR / "tokens"`). -/
def tokFileBaseName : String := "tokens"

/-- One file produced by the walk: the directory path relative to
`JOBS_DEFAULT` as segments, and the base file name.  The relative archive
name `os.path.relpath(filepath, JOBS_DEFAULT)` is `dirSegs ++ [name]`
joined with the separator. -/
structure FileEntry where
  dirSegs : List String
  name : String
  deriving Repr, DecidableEq

/-- The relative archive name of an entry, joined with `/` (POSIX `os.sep`). -/
def FileEntry.relName (e : FileEntry) : String :=
  String.intercalate "/" (e.dirSegs ++ [e.name])

/-- Model of `list_files_upload()` (`cli_sync.py` lines 20-35) over the output of
`os.walk(JOBS_DEFAULT)`: each walk entry is a directory (as segments relative
to the root) with its file names.  `os.walk` on a missing root yields no
entries.  Files named `"tokens"` are skipped wherever they occur. -/
def list_files_upload (walkOutput : List (List String × List String)) :
    List FileEntry :=
  (walkOutput.map (fun d =>
    (d.2.filter (fun f => f ≠ "tokens")).map (fun f => FileEntry.mk d.1 f))).flatten

/-! ## The worker pool (`upload_many`, `cli_sync.py` lines 158-182) -/

/-- Model of `upload_many(access_token, indexed_files, workers)` (`cli_sync.py`
lines 158-182): one `upload_one` task is submitted per indexed file, in list order,
with the object name `relative_name.replace(os.sep, "/").lstrip("/")[:256]`;
results are collected in completion order.  `envs i` is the server/file
environment the task with row index `i` runs against, and `completion` is the
order (by dispatch position) in which `as_completed` yields the futures. -/
def upload_many (envs : Nat → UploadEnv)
    (indexedFiles : List (Nat × FileEntry)) (completion : List Nat) :
    List (String × Bool) :=
  let futures := indexedFiles.map
    (fun p => (upload_one p.1 (envs p.1) (normalizeKey '/' p.2.relName)).1)
  completion.map (fun j => futures.getD j ("", false))

/-- The results in dispatch order (the value of future `j` in submission
order), before `as_completed` permutes them. -/
def dispatchResults (envs : Nat → UploadEnv)
    (indexedFiles : List (Nat × FileEntry)) : List (String × Bool) :=
  indexedFiles.map
    (fun p => (upload_one p.1 (envs p.1) (normalizeKey '/' p.2.relName)).1)

/-! ## Authentication (`cli_auth.py`) -/

/-- An HTTP auth response: status code and the JSON body's `access` and
`refresh` fields. -/
structure AuthResp where
  status : Nat
  access : String
  refresh : String
  deriving Repr, DecidableEq

/-- The credential store: `none` when `TOK_FILE` does not exist, `some c`
when it exists with content `c`. -/
abbrev TokState := Option String

/-- Model of `ensure_data_dir()` (`cli_auth.py` lines 11-19): create an empty token
file when absent, leave an existing one alone. -/
def ensure_data_dir : TokState → TokState
  | none => some ""
  | some c => some c

/-- Model of `register()` (`cli_auth.py` lines 22-48): after `ensure_data_dir`, a
password-confirmation mismatch fails; then `POST /auth/register` must return
201, in which case the response's refresh token is persisted and the access
token returned; any other status fails without writing. -/
def register (pwConfirmed : Bool) (resp : AuthResp) (st : TokState) :
    Option String × TokState :=
  let st := ensure_data_dir st
  if pwConfirmed = false then (none, st)
  else if resp.status ≠ 201 then (none, st)
  else (some resp.access, some resp.refresh)

/-- Python `str.strip()`: whitespace removed from both ends. -/
def pyStrip (s : String) : String :=
  ⟨((s.toList.dropWhile Char.isWhitespace).reverse.dropWhile Char.isWhitespace).reverse⟩

/-- Model of `registered()` (`cli_auth.py` lines 51-57): the token file exists and its
stripped content is non-empty. -/
def registered (st : TokState) : Bool :=
  match st with
  | none => false
  | some c => pyStrip c ≠ ""

/-- Model of `get_access_token()` (`cli_auth.py` lines 60-82): fails when the token
file is absent; otherwise `POST /auth/refresh` must return 200, in which case
the rotated refresh token is persisted and the access token returned; any
other status fails without writing. -/
def get_access_token (resp : AuthResp) (st : TokState) :
    Option String × TokState :=
  match st with
  | none => (none, none)
  | some c =>
    if resp.status ≠ 200 then (none, some c)
    else (some resp.access, some resp.refresh)

/-- Model of `login()` (`cli_auth.py` lines 85-107): after `ensure_data_dir`,
`POST /auth/password` must return 200, in which case the response's refresh
token is persisted and the access token returned; any other status fails
without writing. -/
def login (resp : AuthResp) (st : TokState) : Option String × TokState :=
  let st := ensure_data_dir st
  if resp.status ≠ 200 then (none, st)
  else (some resp.access, some resp.refresh)

/-! ## The `sync` command (`cli_sync.py` lines 194-243) -/

/-- Python truthiness of a `str | False` auth result: `False` and the empty
string are falsy. -/
def pyTruthy : Option String → Bool
  | none => false
  | some s => s ≠ ""

/-- Observable milestones of one `sync` run, in program order. -/
inductive SyncEv where
  | register
  | refresh
  | login
  | enumerate (n : Nat)
  | noFiles
  | synchronizing (n : Nat)
  | aborted
  | tableStart (n : Nat)
  | summary (succeeded : Nat) (total : Nat)
  | complete
  deriving Repr, DecidableEq

/-- The external world one `sync` run interacts with: the initial token file,
the interactive password confirmation, the three possible auth responses, the
filesystem walk, the operator's yes/no confirmation, and the per-row upload
environments. -/
structure SyncEnv where
  tok0 : TokState
  pwConfirmed : Bool
  regResp : AuthResp
  refResp : AuthResp
  logResp : AuthResp
  walkOutput : List (List String × List String)
  confirm : Bool
  envs : Nat → UploadEnv

/-- The authentication phase of `sync` (`cli_sync.py` lines 204-216):
if not `registered()`, try `register()` (failure aborts); otherwise try
`get_access_token()` and fall back to `login()` (`get_access_token() or
login()`); a falsy result aborts. -/
def authPhase (env : SyncEnv) : Option String × List SyncEv :=
  if registered env.tok0 = false then
    let r := register env.pwConfirmed env.regResp env.tok0
    if pyTruthy r.1 then (r.1, [.register]) else (none, [.register])
  else
    let r := get_access_token env.refResp env.tok0
    if pyTruthy r.1 then (r.1, [.refresh])
    else
      let l := login env.logResp r.2
      if pyTruthy l.1 then (l.1, [.refresh, .login])
      else (none, [.refresh, .login])

/-- Model of `sync(jobs)` (`cli_sync.py` lines 194-243): authenticate, enumerate,
short-circuit on an empty enumeration, ask for confirmation, upload through
the pool, and print the summary.  Returns the boolean result and the event
trace. -/
def sync (env : SyncEnv) (completion : List Nat) : Bool × List SyncEv :=
  match (authPhase env).1 with
  | none => (false, (authPhase env).2)
  | some _tok =>
    let files := list_files_upload env.walkOutput
    let evs := (authPhase env).2 ++ [.enumerate files.length]
    if files.length = 0 then (true, evs ++ [.noFiles])
    else if env.confirm = false then
      (false, evs ++ [.synchronizing files.length, .aborted])
    else
      let results := upload_many env.envs files.enum completion
      let k := (results.filter (fun r => r.2)).length
      (true, evs ++ [.synchronizing files.length, .tableStart files.length,
                     .summary k files.length, .complete])

/-! ## The progress table lock (`cli_progress.py` lines 13, 41-53) -/

/-- An event on the shared terminal/lock: acquiring or releasing
`PRINT_LOCK`, or one `sys.stdout.write` call, tagged with the calling
thread. -/
inductive TermEv where
  | acquire (tid : Nat)
  | release (tid : Nat)
  | write (tid : Nat) (s : String)
  deriving Repr, DecidableEq

/-- The event trace of one `table_update(row_index, text)` call
(`cli_progress.py` lines 41-53) by thread `tid`, with `rows` the table height
`_rows`: all five writes happen between the acquisition and the release of
`PRINT_LOCK`. -/
def table_update (tid rowIndex : Nat) (text : String) (rows : Nat) : List TermEv :=
  [.acquire tid,
   .write tid "\x1b[u",
   .write tid ("\x1b[" ++ toString rowIndex ++ "B"),
   .write tid "\x1b[2K",
   .write tid text,
   .write tid ("\x1b[" ++ toString (rows - rowIndex) ++ "B"),
   .release tid]

/-- Interleaving: `Merge xs ys zs` holds when `zs` is an interleaving of `xs` and `ys` (each kept in
order). -/
inductive Merge : List TermEv → List TermEv → List TermEv → Prop where
  | nil : Merge [] [] []
  | left {x xs ys zs} : Merge xs ys zs → Merge (x :: xs) ys (x :: zs)
  | right {y xs ys zs} : Merge xs ys zs → Merge xs (y :: ys) (y :: zs)

/-- Lock discipline of a schedule, given the current holder: a thread can
acquire only a free lock, and only the holder releases.  Writes are not
restricted by the lock itself. -/
def lockOk : Option Nat → List TermEv → Bool
  | _, [] => true
  | holder, e :: rest =>
    match holder, e with
    | none, .acquire t => lockOk (some t) rest
    | none, .release _ => false
    | none, .write _ _ => lockOk none rest
    | some _, .acquire _ => false
    | some t, .release t' => t = t' && lockOk none rest
    | some t, .write _ _ => lockOk (some t) rest

/-! # Theorems -/

/-- Invariant of `runReads`, generalized over the starting state: when
`bytes_sent` matches the position, the position is in range, and `size` is
the content length, the final counter is the start counter plus the bytes
returned, stays within `size`, and the callback log is one entry per
non-empty chunk. -/
theorem runReads_invariant (chunks : List Nat) :
    ∀ pf : ProgressFile, pf.bytes_sent = pf.pos → pf.pos ≤ pf.content.length →
      pf.size = pf.content.length →
      (runReads pf chunks).1.bytes_sent
          = pf.bytes_sent + (((runReads pf chunks).2.1).map List.length).sum ∧
      (runReads pf chunks).1.bytes_sent ≤ pf.size ∧
      (runReads pf chunks).2.2
          = expectedLog pf.size pf.bytes_sent (runReads pf chunks).2.1 := by
  induction chunks with
  | nil =>
    intro pf h1 h2 h3
    refine ⟨by simp [runReads], ?_, by simp [runReads, expectedLog]⟩
    simp only [runReads]
    omega
  | cons c cs ih =>
    intro pf h1 h2 h3
    by_cases hd : ((pf.content.drop pf.pos).take c).isEmpty
    · have hcall : pf.read c = ((pf.content.drop pf.pos).take c, pf, []) := by
        simp [ProgressFile.read, hd]
      have hlen : ((pf.content.drop pf.pos).take c).length = 0 := by
        simp [List.isEmpty_iff] at hd
        simp
        omega
      obtain ⟨ihyp1, ihyp2, ihyp3⟩ := ih pf h1 h2 h3
      refine ⟨?_, ?_, ?_⟩
      · simp only [runReads, hcall]
        simp [hlen, ihyp1]
      · simp only [runReads, hcall]
        simpa using ihyp2
      · simp only [runReads, hcall]
        simp [expectedLog, hd, ihyp3]
    · have hlen : ((pf.content.drop pf.pos).take c).length
          = min c (pf.content.length - pf.pos) := by
        simp
      have hcall : pf.read c =
          ((pf.content.drop pf.pos).take c,
           { pf with
               pos := pf.pos + ((pf.content.drop pf.pos).take c).length,
               bytes_sent := pf.bytes_sent + ((pf.content.drop pf.pos).take c).length },
           [(pf.bytes_sent + ((pf.content.drop pf.pos).take c).length, pf.size)]) := by
        simp [ProgressFile.read, hd]
      obtain ⟨ihyp1, ihyp2, ihyp3⟩ := ih
        { pf with
            pos := pf.pos + ((pf.content.drop pf.pos).take c).length,
            bytes_sent := pf.bytes_sent + ((pf.content.drop pf.pos).take c).length }
        (by simp [h1]) (by simp; omega) (by simp [h3])
      have hne : ((pf.content.drop pf.pos).take c).isEmpty = false := by
        simpa using hd
      refine ⟨?_, ?_, ?_⟩
      · simp only [runReads, hcall]
        simp only [ihyp1]
        simp
        omega
      · simp only [runReads, hcall]
        simpa using ihyp2
      · simp only [runReads, hcall]
        simp [expectedLog, hne]
        simpa using ihyp3

/-- C10: for every `ProgressFile`, `bytes_sent` starts at 0 and after any
sequence of `read` calls equals the total number of bytes returned so far,
never exceeding the file size recorded at construction, and the progress
callback is invoked exactly once per non-empty read with arguments
`(bytes_sent, size)` — never on the empty end-of-file read. -/
theorem progressFile_bytes_sent_invariant (content : List Nat) (chunks : List Nat) :
    (ProgressFile.init content).bytes_sent = 0 ∧
    (runReads (ProgressFile.init content) chunks).1.bytes_sent
        = (((runReads (ProgressFile.init content) chunks).2.1).map List.length).sum ∧
    (runReads (ProgressFile.init content) chunks).1.bytes_sent
        ≤ (ProgressFile.init content).size ∧
    (runReads (ProgressFile.init content) chunks).2.2
        = expectedLog (ProgressFile.init content).size 0
            (runReads (ProgressFile.init content) chunks).2.1 := by
  have h := runReads_invariant chunks (ProgressFile.init content) rfl
    (by simp [ProgressFile.init]) rfl
  refine ⟨rfl, ?_, h.2.1, ?_⟩
  · simpa [ProgressFile.init] using h.1
  · simpa [ProgressFile.init] using h.2.2

/-- C1, counterexample: with a successful presign and a PUT answering 202,
`upload_one` reports the file as successful although 202 is none of
200, 201, 204 (it tests `put_response.ok`, not membership in that set). -/
theorem upload_one_status202_cex :
    ((upload_one 0 ⟨200, 202, []⟩ "obj").1.2 = true) ∧
    ¬((202 : Nat) = 200 ∨ (202 : Nat) = 201 ∨ (202 : Nat) = 204) := by
  exact ⟨rfl, by decide⟩

/-- C1, amended: for every file whose presign step succeeded, `upload_one`
reports the file as successful if and only if the PUT response is non-error
in the `requests` sense (`put_response.ok`, i.e. the status code is outside
400–599); any 4xx/5xx status yields a failure result for that file. -/
theorem upload_one_success_iff_ok (index : Nat) (env : UploadEnv) (obj : String)
    (h : env.presignStatus = 200) :
    (upload_one index env obj).1.2 = responseOk env.putStatus := by
  simp [upload_one, h]
  split <;> simp

/-- Witness for `upload_one_success_iff_ok` at a concrete input. -/
theorem upload_one_success_iff_ok_witness :
    (UploadEnv.mk 200 503 [1]).presignStatus = 200 ∧
    (upload_one 5 (UploadEnv.mk 200 503 [1]) "k").1.2 = responseOk 503 :=
  ⟨rfl, upload_one_success_iff_ok 5 (UploadEnv.mk 200 503 [1]) "k" rfl⟩

/-- Head of a `dropWhile` result never satisfies the dropped predicate. -/
theorem dropWhile_head_not (p : Char → Bool) :
    ∀ (l : List Char) (a : Char) (t : List Char), l.dropWhile p = a :: t → p a = false := by
  intro l
  induction l with
  | nil => intro a t h; simp [List.dropWhile] at h
  | cons x xs ihx =>
    intro a t h
    by_cases hx : p x
    · rw [List.dropWhile_cons_of_pos hx] at h
      exact ihx a t h
    · rw [List.dropWhile_cons_of_neg hx] at h
      cases h
      simpa using hx

set_option maxRecDepth 10000

/-- C3, counterexample: the relative archive name made of two leading
slashes followed by 255 letters is 257 characters long, yet its remote key
has 255 characters, not 256 — leading slashes are stripped before the
truncation, so a name longer than 256 characters need not yield a key of
exactly 256 characters. -/
theorem normalizeKey_exact256_cex :
    256 < ('/' :: '/' :: List.replicate 255 'a').length ∧
    (normalizeKeyL '/' ('/' :: '/' :: List.replicate 255 'a')).length ≠ 256 := by
  decide

/-- C3, amended: the remote object key is obtained by replacing OS path
separators with forward slashes, stripping leading slashes, and truncating
to at most 256 characters; the key never starts with a slash, and whenever
the separator-normalized, slash-stripped name still has at least 256
characters the key has exactly 256 characters (in particular any name longer
than 256 characters with no leading separators). -/
theorem normalizeKey_truncation (sep : Char) (name : List Char) :
    (normalizeKeyL sep name).length ≤ 256 ∧
    (∀ c t, normalizeKeyL sep name = c :: t → c ≠ '/') ∧
    (256 ≤ ((name.map (fun c => if c = sep then '/' else c)).dropWhile
        (fun c => c = '/')).length →
      (normalizeKeyL sep name).length = 256) := by
  refine ⟨?_, ?_, ?_⟩
  · simp [normalizeKeyL]
  · intro c t h hc
    subst hc
    rcases hL : (name.map (fun c => if c = sep then '/' else c)).dropWhile
        (fun c => c = '/') with _ | ⟨a, l'⟩
    · unfold normalizeKeyL at h
      rw [hL] at h
      simp at h
    · unfold normalizeKeyL at h
      rw [hL] at h
      simp [List.take_succ_cons] at h
      have hpa := dropWhile_head_not (fun c => c = '/') _ _ _ hL
      rw [h.1] at hpa
      simp at hpa
  · intro h
    simp [normalizeKeyL]
    omega

/-- Witness for `normalizeKey_truncation`: a 257-character name with no
separators keeps 257 characters after normalization and stripping, and its
key has exactly 256 characters. -/
theorem normalizeKey_truncation_witness :
    256 ≤ (((List.replicate 257 'a').map (fun c => if c = '/' then '/' else c)).dropWhile
        (fun c => c = '/')).length ∧
    (normalizeKeyL '/' (List.replicate 257 'a')).length = 256 :=
  ⟨by decide, (normalizeKey_truncation '/' (List.replicate 257 'a')).2.2 (by decide)⟩

/-- C7: for every file of size zero whose presign step succeeded, the upload
worker sends the PUT with an explicit Content-Length of 0 and an empty body,
never constructs the streaming `ProgressFile` wrapper, and never invokes the
chunked progress callback (on any presign outcome). -/
theorem upload_one_zero_byte (index : Nat) (env : UploadEnv) (obj : String)
    (h0 : env.content.length = 0) :
    (env.presignStatus = 200 →
       (upload_one index env obj).2
         = [UpEv.presign obj, UpEv.put (some "0") 0, UpEv.tableUpd index]) ∧
    UpEv.mkProgress ∉ (upload_one index env obj).2 ∧
    ∀ s t, UpEv.progressCb s t ∉ (upload_one index env obj).2 := by
  have hc : env.content = [] := List.length_eq_zero.mp h0
  refine ⟨fun h200 => by simp [upload_one, h200, hc], ?_, ?_⟩
  · by_cases hp : env.presignStatus = 200 <;> simp [upload_one, hp, hc]
  · intro s t
    by_cases hp : env.presignStatus = 200 <;> simp [upload_one, hp, hc]

/-- Witness for `upload_one_zero_byte` at a concrete zero-byte upload. -/
theorem upload_one_zero_byte_witness :
    (UploadEnv.mk 200 204 []).content.length = 0 ∧
    (upload_one 2 (UploadEnv.mk 200 204 []) "w").2
      = [UpEv.presign "w", UpEv.put (some "0") 0, UpEv.tableUpd 2] :=
  ⟨rfl, (upload_one_zero_byte 2 (UploadEnv.mk 200 204 []) "w" rfl).1 rfl⟩

/-- C6: the file enumerator excludes every file whose base name equals the
credential file's base name (`"tokens"`), regardless of its location in the
tree, and returns an empty list rather than an error when the root directory
does not exist (the walk yields nothing) or contains no eligible files. -/
theorem list_files_upload_excludes_tokens
    (walkOutput : List (List String × List String)) :
    tokFileBaseName = "tokens" ∧
    (∀ e ∈ list_files_upload walkOutput, e.name ≠ tokFileBaseName) ∧
    list_files_upload [] = [] ∧
    ((∀ d ∈ walkOutput, ∀ f ∈ d.2, f = "tokens") →
       list_files_upload walkOutput = []) := by
  refine ⟨rfl, ?_, rfl, ?_⟩
  · intro e he
    simp only [list_files_upload, List.mem_flatten, List.mem_map] at he
    obtain ⟨l, ⟨d, hd, rfl⟩, he⟩ := he
    rw [List.mem_map] at he
    obtain ⟨f, hf, rfl⟩ := he
    have := List.of_mem_filter hf
    simpa [tokFileBaseName] using this
  · intro hall
    simp only [list_files_upload, List.flatten_eq_nil_iff, List.mem_map]
    rintro l ⟨d, hd, rfl⟩
    simp only [List.map_eq_nil_iff, List.filter_eq_nil_iff]
    intro f hf
    simp [hall d hd f hf]

/-- Witness for `list_files_upload_excludes_tokens`: a tree whose only file
is a nested `tokens` file enumerates to the empty list. -/
theorem list_files_upload_excludes_tokens_witness :
    (∀ d ∈ [(["sub"], ["tokens"])], ∀ f ∈ d.2, f = "tokens") ∧
    list_files_upload [(["sub"], ["tokens"])] = [] :=
  ⟨by simp,
   (list_files_upload_excludes_tokens [(["sub"], ["tokens"])]).2.2.2 (by simp)⟩

/-- C4: for every auth exchange (register, refresh, login) run against a
stored token file: on the success status (201 for register, 200 for refresh
and login) the stored file is overwritten with the refresh value from the
response (rotation-on-use) and the response's access token is returned; on
any other status the exchange returns a failure and the stored content is
left unchanged. -/
theorem auth_exchange_rotation (rr fr lr : AuthResp) (c : String) (st : TokState)
    (hs : st = some c) :
    (rr.status = 201 → register true rr st = (some rr.access, some rr.refresh)) ∧
    (rr.status ≠ 201 → register true rr st = (none, some c)) ∧
    (fr.status = 200 → get_access_token fr st = (some fr.access, some fr.refresh)) ∧
    (fr.status ≠ 200 → get_access_token fr st = (none, some c)) ∧
    (lr.status = 200 → login lr st = (some lr.access, some lr.refresh)) ∧
    (lr.status ≠ 200 → login lr st = (none, some c)) := by
  subst hs
  refine ⟨?_, ?_, ?_, ?_, ?_, ?_⟩ <;> intro h <;>
    simp [register, get_access_token, login, ensure_data_dir, h]

/-- Witness for `auth_exchange_rotation`: a successful registration rotates
the stored token, a failed refresh leaves it unchanged. -/
theorem auth_exchange_rotation_witness :
    (some "old" : TokState) = some "old" ∧
    register true (AuthResp.mk 201 "acc" "ref") (some "old")
      = (some "acc", some "ref") ∧
    get_access_token (AuthResp.mk 500 "x" "y") (some "old") = (none, some "old") :=
  ⟨rfl,
   (auth_exchange_rotation (AuthResp.mk 201 "acc" "ref") (AuthResp.mk 500 "x" "y")
      (AuthResp.mk 200 "a" "b") "old" (some "old") rfl).1 rfl,
   (auth_exchange_rotation (AuthResp.mk 201 "acc" "ref") (AuthResp.mk 500 "x" "y")
      (AuthResp.mk 200 "a" "b") "old" (some "old") rfl).2.2.2.1 (by decide)⟩

/-- Looking positions `0..n-1` up in a list of length `n` reproduces the
list. -/
theorem map_getD_range {α : Type} (l : List α) (d : α) :
    (List.range l.length).map (fun j => l.getD j d) = l := by
  induction l with
  | nil => simp
  | cons a t ih =>
    rw [List.length_cons, List.range_succ_eq_map, List.map_cons, List.map_map]
    have hf : ((fun j => (a :: t).getD j d) ∘ Nat.succ) = fun j => t.getD j d := by
      funext j
      simp
    rw [hf, ih]
    simp

/-- C2: for every enumerated list of `N` upload items, `upload_many` returns
exactly `N` results forming a permutation of the dispatch-order results (one
per item, no duplicates, no omissions) for every completion order, and the
row index passed to each worker equals that item's position in enumeration
order (`enum` pairs position `i` with item `i`). -/
theorem upload_many_bijection (envs : Nat → UploadEnv) (files : List FileEntry)
    (completion : List Nat) (hc : completion.Perm (List.range files.length)) :
    (upload_many envs files.enum completion).length = files.length ∧
    (upload_many envs files.enum completion).Perm
      (dispatchResults envs files.enum) ∧
    (files.enum).map Prod.fst = List.range files.length := by
  have hlen : (dispatchResults envs files.enum).length = files.length := by
    simp [dispatchResults]
  have hperm : (upload_many envs files.enum completion).Perm
      (dispatchResults envs files.enum) := by
    have h1 : upload_many envs files.enum completion
        = completion.map
            (fun j => (dispatchResults envs files.enum).getD j ("", false)) := rfl
    rw [h1]
    have h2 := hc.map (fun j => (dispatchResults envs files.enum).getD j ("", false))
    have h3 : (List.range files.length).map
        (fun j => (dispatchResults envs files.enum).getD j ("", false))
        = dispatchResults envs files.enum := by
      rw [← hlen]
      exact map_getD_range _ _
    have h5 : ((List.range files.length).map
        (fun j => (dispatchResults envs files.enum).getD j ("", false))).Perm
        (dispatchResults envs files.enum) := by
      rw [h3]
    exact h2.trans h5
  exact ⟨by rw [hperm.length_eq, hlen], hperm, List.enum_map_fst files⟩

/-- Witness for `upload_many_bijection`: two files finishing in reversed
order still give two results and identity row assignment. -/
theorem upload_many_bijection_witness :
    ([1, 0] : List Nat).Perm
      (List.range ([FileEntry.mk [] "a", FileEntry.mk [] "b"] : List FileEntry).length) ∧
    (upload_many (fun _ => UploadEnv.mk 200 201 [])
        ([FileEntry.mk [] "a", FileEntry.mk [] "b"].enum) [1, 0]).length = 2 ∧
    ([FileEntry.mk [] "a", FileEntry.mk [] "b"].enum).map Prod.fst = List.range 2 :=
  ⟨by decide,
   by
     have h := upload_many_bijection (fun _ => UploadEnv.mk 200 201 [])
       [FileEntry.mk [] "a", FileEntry.mk [] "b"] [1, 0] (by decide)
     exact h.1,
   by
     have h := upload_many_bijection (fun _ => UploadEnv.mk 200 201 [])
       [FileEntry.mk [] "a", FileEntry.mk [] "b"] [1, 0] (by decide)
     exact h.2.2⟩

/-- Behaviour of the auth phase when no registration is stored. -/
theorem authPhase_not_registered (env : SyncEnv) (h : registered env.tok0 = false) :
    authPhase env
      = (if pyTruthy (register env.pwConfirmed env.regResp env.tok0).1
           then ((register env.pwConfirmed env.regResp env.tok0).1, [SyncEv.register])
           else (none, [SyncEv.register])) := by
  simp [authPhase, h]

/-- Behaviour of the auth phase when a registration is stored. -/
theorem authPhase_registered (env : SyncEnv) (h : registered env.tok0 = true) :
    authPhase env
      = (if pyTruthy (get_access_token env.refResp env.tok0).1
           then ((get_access_token env.refResp env.tok0).1, [SyncEv.refresh])
           else if pyTruthy (login env.logResp (get_access_token env.refResp env.tok0).2).1
             then ((login env.logResp (get_access_token env.refResp env.tok0).2).1,
                   [SyncEv.refresh, SyncEv.login])
             else (none, [SyncEv.refresh, SyncEv.login])) := by
  simp [authPhase, h]

/-- Failed authentication aborts `sync` with the auth-phase trace. -/
theorem sync_auth_fail (env : SyncEnv) (completion : List Nat)
    (h : (authPhase env).1 = none) :
    sync env completion = (false, (authPhase env).2) := by
  simp [sync, h]

/-- After a successful auth phase, the trace of `sync` is the auth trace
followed by the enumeration event and a tail free of auth events. -/
theorem sync_auth_ok (env : SyncEnv) (completion : List Nat) (tok : String)
    (h : (authPhase env).1 = some tok) :
    ∃ tail, (sync env completion).2
        = (authPhase env).2
            ++ SyncEv.enumerate (list_files_upload env.walkOutput).length :: tail ∧
      SyncEv.register ∉ tail ∧ SyncEv.refresh ∉ tail ∧ SyncEv.login ∉ tail := by
  simp only [sync, h]
  by_cases hf : (list_files_upload env.walkOutput).length = 0
  · exact ⟨[SyncEv.noFiles], by simp [hf], by simp, by simp, by simp⟩
  · by_cases hcf : env.confirm = false
    · refine ⟨[SyncEv.synchronizing (list_files_upload env.walkOutput).length,
        SyncEv.aborted], ?_, by simp, by simp, by simp⟩
      simp [hf, hcf]
    · refine ⟨[SyncEv.synchronizing (list_files_upload env.walkOutput).length,
        SyncEv.tableStart (list_files_upload env.walkOutput).length,
        SyncEv.summary
          (((upload_many env.envs (list_files_upload env.walkOutput).enum
              completion).filter (fun r => r.2)).length)
          (list_files_upload env.walkOutput).length,
        SyncEv.complete], ?_, by simp, by simp, by simp⟩
      simp [hf, hcf]

/-- Truthy auth results are `some`. -/
theorem pyTruthy_some (o : Option String) (h : pyTruthy o = true) : ∃ s, o = some s := by
  cases o with
  | none => simp [pyTruthy] at h
  | some s => exact ⟨s, rfl⟩

/-- C5: during `sync`, authentication follows a fixed precedence: with no
registration stored, interactive registration is attempted (and its failure
aborts the sync as `(false, [register])`); with a registration stored, a
silent refresh is attempted first, login runs only when the refresh result is
falsy, and a login failure aborts the sync with a failure result before any
file is enumerated or uploaded. -/
theorem sync_auth_precedence (env : SyncEnv) (completion : List Nat) :
    (registered env.tok0 = false →
       (sync env completion).2.head? = some SyncEv.register ∧
       (pyTruthy (register env.pwConfirmed env.regResp env.tok0).1 = false →
          sync env completion = (false, [SyncEv.register]))) ∧
    (registered env.tok0 = true →
       (sync env completion).2.head? = some SyncEv.refresh ∧
       SyncEv.register ∉ (sync env completion).2 ∧
       (pyTruthy (get_access_token env.refResp env.tok0).1 = true →
          SyncEv.login ∉ (sync env completion).2) ∧
       (pyTruthy (get_access_token env.refResp env.tok0).1 = false →
          (sync env completion).2.take 2 = [SyncEv.refresh, SyncEv.login]) ∧
       (pyTruthy (get_access_token env.refResp env.tok0).1 = false →
        pyTruthy (login env.logResp (get_access_token env.refResp env.tok0).2).1 = false →
          sync env completion = (false, [SyncEv.refresh, SyncEv.login]) ∧
          ∀ n, SyncEv.enumerate n ∉ (sync env completion).2)) := by
  constructor
  · intro hreg
    have ha := authPhase_not_registered env hreg
    by_cases hp : pyTruthy (register env.pwConfirmed env.regResp env.tok0).1 = true
    · obtain ⟨s, hs⟩ := pyTruthy_some _ hp
      have hps : pyTruthy (some s) = true := by rw [← hs]; exact hp
      have ha1 : (authPhase env).1 = some s := by rw [ha, hs]; simp [hps]
      have ha2 : (authPhase env).2 = [SyncEv.register] := by rw [ha]; simp [hp]
      obtain ⟨tail, htr, h3, h4, h5⟩ := sync_auth_ok env completion s ha1
      refine ⟨by rw [htr, ha2]; rfl, ?_⟩
      intro hcontra
      rw [hp] at hcontra
      exact Bool.noConfusion hcontra
    · rw [Bool.not_eq_true] at hp
      have ha1 : (authPhase env).1 = none := by rw [ha]; simp [hp]
      have ha2 : (authPhase env).2 = [SyncEv.register] := by rw [ha]; simp [hp]
      have hsync := sync_auth_fail env completion ha1
      rw [hsync, ha2]
      exact ⟨rfl, fun _ => rfl⟩
  · intro hreg
    have ha := authPhase_registered env hreg
    by_cases hp : pyTruthy (get_access_token env.refResp env.tok0).1 = true
    · obtain ⟨s, hs⟩ := pyTruthy_some _ hp
      have hps : pyTruthy (some s) = true := by rw [← hs]; exact hp
      have ha1 : (authPhase env).1 = some s := by rw [ha, hs]; simp [hps]
      have ha2 : (authPhase env).2 = [SyncEv.refresh] := by rw [ha]; simp [hp]
      obtain ⟨tail, htr, h3, h4, h5⟩ := sync_auth_ok env completion s ha1
      refine ⟨by rw [htr, ha2]; rfl, ?_, ?_, ?_, ?_⟩
      · rw [htr, ha2]
        simp [h3]
      · intro _
        rw [htr, ha2]
        simp [h5]
      · intro hcontra
        rw [hp] at hcontra
        exact Bool.noConfusion hcontra
      · intro hcontra
        rw [hp] at hcontra
        exact Bool.noConfusion hcontra
    · rw [Bool.not_eq_true] at hp
      by_cases hl :
          pyTruthy (login env.logResp (get_access_token env.refResp env.tok0).2).1 = true
      · obtain ⟨s, hs⟩ := pyTruthy_some _ hl
        have hls : pyTruthy (some s) = true := by rw [← hs]; exact hl
        have ha1 : (authPhase env).1 = some s := by rw [ha, hs]; simp [hp, hls]
        have ha2 : (authPhase env).2 = [SyncEv.refresh, SyncEv.login] := by
          rw [ha]; simp [hp, hl]
        obtain ⟨tail, htr, h3, h4, h5⟩ := sync_auth_ok env completion s ha1
        refine ⟨by rw [htr, ha2]; rfl, ?_, ?_, ?_, ?_⟩
        · rw [htr, ha2]
          simp [h3]
        · intro hcontra
          rw [hcontra] at hp
          exact Bool.noConfusion hp
        · intro _
          rw [htr, ha2]
          rfl
        · intro _ hcontra
          rw [hl] at hcontra
          exact Bool.noConfusion hcontra
      · rw [Bool.not_eq_true] at hl
        have ha1 : (authPhase env).1 = none := by rw [ha]; simp [hp, hl]
        have ha2 : (authPhase env).2 = [SyncEv.refresh, SyncEv.login] := by
          rw [ha]; simp [hp, hl]
        have hsync := sync_auth_fail env completion ha1
        rw [hsync, ha2]
        refine ⟨rfl, by simp, ?_, fun _ => rfl, fun _ _ => ⟨rfl, by simp⟩⟩
        intro hcontra
        rw [hcontra] at hp
        exact Bool.noConfusion hp

/-- Witness for `sync_auth_precedence`: a registered environment whose
refresh and login both fail aborts with exactly the refresh and login
attempts. -/
theorem sync_auth_precedence_witness :
    registered (some "tok") = true ∧
    sync (SyncEnv.mk (some "tok") true (AuthResp.mk 201 "a" "r") (AuthResp.mk 401 "x" "y")
        (AuthResp.mk 403 "u" "v") [([], ["f"])] true (fun _ => UploadEnv.mk 200 201 [])) []
      = (false, [SyncEv.refresh, SyncEv.login]) := by
  refine ⟨by decide, ?_⟩
  have h := (sync_auth_precedence
    (SyncEnv.mk (some "tok") true (AuthResp.mk 201 "a" "r") (AuthResp.mk 401 "x" "y")
      (AuthResp.mk 403 "u" "v") [([], ["f"])] true (fun _ => UploadEnv.mk 200 201 [])) []).2
    (by decide)
  exact (h.2.2.2.2 (by decide) (by decide)).1

/-- C8, counterexample: a run that passes authentication (the silent refresh
succeeds) and enumerates one file but is declined at the confirmation prompt
ends with the `Aborted.` event and never reaches a numeric `X/N` summary. -/
theorem sync_summary_cex :
    (sync (SyncEnv.mk (some "t") true (AuthResp.mk 201 "a" "r") (AuthResp.mk 200 "b" "c")
        (AuthResp.mk 200 "d" "e") [([], ["f"])] false (fun _ => UploadEnv.mk 200 201 [])) []).2
      = [SyncEv.refresh, SyncEv.enumerate 1, SyncEv.synchronizing 1, SyncEv.aborted] ∧
    ∀ k n, SyncEv.summary k n ∉
      (sync (SyncEnv.mk (some "t") true (AuthResp.mk 201 "a" "r") (AuthResp.mk 200 "b" "c")
        (AuthResp.mk 200 "d" "e") [([], ["f"])] false (fun _ => UploadEnv.mk 200 201 [])) []).2 := by
  have h : (sync (SyncEnv.mk (some "t") true (AuthResp.mk 201 "a" "r") (AuthResp.mk 200 "b" "c")
      (AuthResp.mk 200 "d" "e") [([], ["f"])] false (fun _ => UploadEnv.mk 200 201 [])) []).2
      = [SyncEv.refresh, SyncEv.enumerate 1, SyncEv.synchronizing 1, SyncEv.aborted] := by
    decide
  refine ⟨h, ?_⟩
  intro k n
  rw [h]
  simp

/-- C8, amended: a sync run that passes authentication ends with the numeric
summary event `summary k N` (followed by the completion message) exactly when
the enumeration is non-empty and the operator confirms, regardless of partial
upload failures; an empty enumeration short-circuits to the trivial
`No files to sync.` message with a success result, and a declined
confirmation ends with `Aborted.` and a failure result. -/
theorem sync_summary_amended (env : SyncEnv) (completion : List Nat) (tok : String)
    (htok : (authPhase env).1 = some tok) :
    (list_files_upload env.walkOutput = [] →
       sync env completion
         = (true, (authPhase env).2 ++ [SyncEv.enumerate 0, SyncEv.noFiles])) ∧
    ((list_files_upload env.walkOutput).length ≠ 0 → env.confirm = true →
       sync env completion
         = (true, (authPhase env).2 ++
             [SyncEv.enumerate (list_files_upload env.walkOutput).length,
              SyncEv.synchronizing (list_files_upload env.walkOutput).length,
              SyncEv.tableStart (list_files_upload env.walkOutput).length,
              SyncEv.summary
                ((upload_many env.envs (list_files_upload env.walkOutput).enum
                    completion).filter (fun r => r.2)).length
                (list_files_upload env.walkOutput).length,
              SyncEv.complete])) ∧
    ((list_files_upload env.walkOutput).length ≠ 0 → env.confirm = false →
       sync env completion
         = (false, (authPhase env).2 ++
             [SyncEv.enumerate (list_files_upload env.walkOutput).length,
              SyncEv.synchronizing (list_files_upload env.walkOutput).length,
              SyncEv.aborted])) := by
  refine ⟨?_, ?_, ?_⟩
  · intro hf
    simp [sync, htok, hf]
  · intro hf hcf
    simp [sync, htok, hf, hcf]
  · intro hf hcf
    simp [sync, htok, hf, hcf]

/-- Witness for `sync_summary_amended`: a confirmed one-file run ends in the
`1/1` summary and the completion message. -/
theorem sync_summary_amended_witness :
    (authPhase (SyncEnv.mk (some "t") true (AuthResp.mk 201 "a" "r") (AuthResp.mk 200 "b" "c")
        (AuthResp.mk 200 "d" "e") [([], ["g"])] true (fun _ => UploadEnv.mk 200 201 []))).1
      = some "b" ∧
    sync (SyncEnv.mk (some "t") true (AuthResp.mk 201 "a" "r") (AuthResp.mk 200 "b" "c")
        (AuthResp.mk 200 "d" "e") [([], ["g"])] true (fun _ => UploadEnv.mk 200 201 [])) [0]
      = (true, [SyncEv.refresh, SyncEv.enumerate 1, SyncEv.synchronizing 1,
                SyncEv.tableStart 1, SyncEv.summary 1 1, SyncEv.complete]) := by
  refine ⟨by decide, ?_⟩
  have h := (sync_summary_amended (SyncEnv.mk (some "t") true (AuthResp.mk 201 "a" "r")
      (AuthResp.mk 200 "b" "c") (AuthResp.mk 200 "d" "e") [([], ["g"])] true
      (fun _ => UploadEnv.mk 200 201 [])) [0] "b" (by decide)).2.1 (by decide) rfl
  rw [h]
  decide

/-- Interleaving with an empty left component is the right component. -/
theorem merge_nil_left : ∀ (ys zs : List TermEv), Merge [] ys zs → zs = ys := by
  intro ys
  induction ys with
  | nil =>
    intro zs h
    cases h
    rfl
  | cons y ys ih =>
    intro zs h
    cases h with
    | right h' => exact congrArg (y :: ·) (ih _ h')

/-- The trivial interleaving that runs the whole left list first. -/
theorem merge_nil_all (ys : List TermEv) : Merge [] ys ys := by
  induction ys with
  | nil => exact Merge.nil
  | cons y ys ih => exact Merge.right ih

/-- Concatenation is one valid interleaving. -/
theorem merge_all_left (xs ys : List TermEv) : Merge xs ys (xs ++ ys) := by
  induction xs with
  | nil => simpa using merge_nil_all ys
  | cons x xs ih => exact Merge.left ih

/-- Interleaving is symmetric in its two components. -/
theorem merge_swap : ∀ {xs ys zs : List TermEv}, Merge xs ys zs → Merge ys xs zs := by
  intro xs ys zs h
  induction h with
  | nil => exact Merge.nil
  | left h ih => exact Merge.right ih
  | right h ih => exact Merge.left ih

/-- While thread `t` holds the lock, a schedule merging the writes-then-release
remainder of `t`'s critical section with another trace that starts by
acquiring the lock must run the whole remainder first. -/
theorem merge_locked_run (t : Nat) :
    ∀ (ws : List TermEv), (∀ e ∈ ws, ∃ tid str, e = TermEv.write tid str) →
      ∀ (u : Nat) (ys zs : List TermEv),
        Merge (ws ++ [TermEv.release t]) ys zs →
        ys.head? = some (TermEv.acquire u) → lockOk (some t) zs = true →
        zs = ws ++ TermEv.release t :: ys := by
  intro ws
  induction ws with
  | nil =>
    intro _ u ys zs h hhead hlock
    rw [List.nil_append] at h
    cases h with
    | left h' =>
      rw [merge_nil_left _ _ h']
      rfl
    | right h' =>
      rename_i y xs zsr
      have hy : y = TermEv.acquire u := by simpa using hhead
      subst hy
      simp [lockOk] at hlock
  | cons w ws ih =>
    intro hw u ys zs h hhead hlock
    rw [List.cons_append] at h
    cases h with
    | left h' =>
      obtain ⟨tid, str, rfl⟩ := hw w (List.mem_cons_self w ws)
      rename_i zs'
      have hlock' : lockOk (some t) zs' = true := by simpa [lockOk] using hlock
      rw [ih (fun e he => hw e (List.mem_cons_of_mem _ he)) u ys zs' h' hhead hlock']
      rfl
    | right h' =>
      rename_i y ys' zs''
      have hy : y = TermEv.acquire u := by simpa using hhead
      subst hy
      simp [lockOk] at hlock

/-- The explicit acquire/body/release decomposition of a `table_update`
trace. -/
theorem table_update_eq (tid rowIndex : Nat) (text : String) (rows : Nat) :
    table_update tid rowIndex text rows
      = TermEv.acquire tid ::
          ([TermEv.write tid "\x1b[u",
            TermEv.write tid ("\x1b[" ++ toString rowIndex ++ "B"),
            TermEv.write tid "\x1b[2K",
            TermEv.write tid text,
            TermEv.write tid ("\x1b[" ++ toString (rows - rowIndex) ++ "B")]
           ++ [TermEv.release tid]) := rfl

/-- Every event strictly between the acquire and the release of a
`table_update` trace is a write. -/
theorem table_update_body_writes (tid rowIndex : Nat) (text : String) (rows : Nat) :
    ∀ e ∈ [TermEv.write tid "\x1b[u",
           TermEv.write tid ("\x1b[" ++ toString rowIndex ++ "B"),
           TermEv.write tid "\x1b[2K",
           TermEv.write tid text,
           TermEv.write tid ("\x1b[" ++ toString (rows - rowIndex) ++ "B")],
      ∃ t str, e = TermEv.write t str := by
  intro e he
  simp only [List.mem_cons, List.not_mem_nil, or_false] at he
  rcases he with rfl | rfl | rfl | rfl | rfl <;> exact ⟨_, _, rfl⟩

/-- C9: a `table_update` trace acquires `PRINT_LOCK` first, performs all its
terminal writes while holding it, and releases it last; consequently every
lock-respecting interleaving of two concurrent `table_update` calls is fully
serialized — one call's escape sequences complete before the other's begin,
so the writes of the two calls never interleave. -/
theorem table_update_serialized (t1 t2 r1 r2 rows : Nat) (x1 x2 : String)
    (s : List TermEv)
    (hm : Merge (table_update t1 r1 x1 rows) (table_update t2 r2 x2 rows) s)
    (hl : lockOk none s = true) :
    s = table_update t1 r1 x1 rows ++ table_update t2 r2 x2 rows ∨
    s = table_update t2 r2 x2 rows ++ table_update t1 r1 x1 rows := by
  rw [table_update_eq t1 r1 x1 rows, table_update_eq t2 r2 x2 rows] at hm
  cases hm with
  | left h' =>
    rename_i zs'
    have hl' : lockOk (some t1) zs' = true := by simpa [lockOk] using hl
    have hrun := merge_locked_run t1 _ (table_update_body_writes t1 r1 x1 rows) t2 _ zs'
      h' rfl hl'
    left
    rw [table_update_eq t1 r1 x1 rows, table_update_eq t2 r2 x2 rows, hrun]
    simp [table_update_eq]
  | right h' =>
    rename_i zs'
    have hl' : lockOk (some t2) zs' = true := by simpa [lockOk] using hl
    have hrun := merge_locked_run t2 _ (table_update_body_writes t2 r2 x2 rows) t1 _ zs'
      (merge_swap h') rfl hl'
    right
    rw [table_update_eq t1 r1 x1 rows, table_update_eq t2 r2 x2 rows, hrun]
    simp [table_update_eq]

/-- Witness for `table_update_serialized`: running the two calls back to back
is a lock-respecting interleaving, and the theorem reports it serialized. -/
theorem table_update_serialized_witness :
    Merge (table_update 1 0 "a" 2) (table_update 2 1 "b" 2)
        (table_update 1 0 "a" 2 ++ table_update 2 1 "b" 2) ∧
    lockOk none (table_update 1 0 "a" 2 ++ table_update 2 1 "b" 2) = true ∧
    (table_update 1 0 "a" 2 ++ table_update 2 1 "b" 2
        = table_update 1 0 "a" 2 ++ table_update 2 1 "b" 2 ∨
     table_update 1 0 "a" 2 ++ table_update 2 1 "b" 2
        = table_update 2 1 "b" 2 ++ table_update 1 0 "a" 2) :=
  ⟨merge_all_left _ _, by decide,
   table_update_serialized 1 2 0 1 2 "a" "b" _ (merge_all_left _ _) (by decide)⟩

end Benchwrap
